import Mathlib

/-!
Verification of the distbuild job service (coordinator, store, sandbox
executor) against its natural-language specification.

The embedding below is a shallow model of the Python sources:

* `src/distbuild/models.py` — the `JobStatus` enum and the `Job`,
  `Consumer` and `JobLogChunk` rows (UUIDs become `Nat` identifiers,
  timestamps become `Int` seconds).
* `src/distbuild/api.py` — the coordinator endpoints `worker_claim`,
  `worker_append_logs`, `worker_finish`, `create_job`,
  `_require_consumer` and the WebSocket authentication prologue of
  `ws_job_logs`.
* `src/distbuild/quota.py` — `enforce_submit_quota`, `enforce_claim_quota`.
* `src/distbuild/sandbox.py` — the timeout/exit-code and per-job-network
  control flow of `run_local` and `run_docker`.

The database is a list of rows in table (insertion) order.  A SQL
`SELECT ... ORDER BY created_at LIMIT 1` with no further ordering key is
modelled as the first row in table order among those of minimal
`created_at` (what SQLite returns in practice); the point where the spec
assumes a tie-break that the query does not provide is treated below.
Each HTTP request handler becomes a pure function from the store to the
response and the updated store; concurrency is modelled by letting the
atomic store operations of distinct requests interleave arbitrarily.
-/

namespace Distbuild

/-- The `JobStatus` enum from `models.py`. -/
inductive JobStatus where
  | queued
  | running
  | succeeded
  | failed
  | cancelled
deriving DecidableEq, Repr

/-- Terminal statuses of the job state machine. -/
def JobStatus.isTerminal : JobStatus → Bool
  | .succeeded => true
  | .failed => true
  | .cancelled => true
  | _ => false

/-- A row of the `job` table (`models.py`, class `Job`).  UUIDs are
modelled as `Nat`, timestamps as `Int` seconds; the `sandbox`, `image`
and `command` columns are irrelevant to the claims about the claim /
finish protocol and are omitted from the row. -/
structure JobRow where
  id : Nat
  consumerId : Nat
  status : JobStatus
  created : Int
  startedAt : Option Int := none
  finishedAt : Option Int := none
  workerId : Option String := none
  exitCode : Option Int := none
  error : Option String := none
deriving DecidableEq, Repr

/-- A row of the `consumer` table (`models.py`, class `Consumer`).
Credential material is abstracted: `keyId` is the public lookup key and
digest verification is a function parameter where it matters. -/
structure ConsumerRow where
  id : Nat
  keyId : String := ""
  active : Bool := true
  maxConcurrentJobs : Nat := 1
  maxJobsPerDay : Nat := 100
deriving DecidableEq, Repr

/-- The `job` table: rows in insertion order. -/
abbrev Store := List JobRow

/-- Number of `running` jobs of a consumer
(`quota.py` lines 21–25 / 44–48: `select(Job).where(consumer_id).where(status == running)`). -/
def runningCount (s : Store) (cid : Nat) : Nat :=
  (s.filter (fun j => j.consumerId == cid && j.status == JobStatus.running)).length

/-! ### The claim endpoint (`api.py`, `worker_claim`, lines 243–275) -/

/-- The row of minimal `created` in a list, ties resolved to the earliest
row in table order.  Models `ORDER BY created_at LIMIT 1`: the query has
no secondary ordering key, so among equal `created_at` the row returned
is the first in table (rowid/insertion) order. -/
def minByCreated : List JobRow → Option JobRow
  | [] => none
  | x :: xs =>
    match minByCreated xs with
    | none => some x
    | some m => if m.created < x.created then some m else some x

/-- Embeds `select(Job).where(Job.status == JobStatus.queued).order_by(Job.created_at).limit(1)`
(`api.py` lines 250–252). -/
def selectOldestQueued (s : Store) : Option JobRow :=
  minByCreated (s.filter (fun j => j.status == JobStatus.queued))

/-- Effect of the conditional `UPDATE` of `worker_claim` on one row:
rows matching `id == jid AND status == queued` get
`status=running, started_at=now, worker_id=wid`; others are unchanged
(`api.py` lines 262–267). -/
def updRow (jid : Nat) (wid : String) (now : Int) (r : JobRow) : JobRow :=
  if r.id == jid && r.status == JobStatus.queued then
    { r with status := JobStatus.running, startedAt := some now, workerId := some wid }
  else r

/-- The conditional `UPDATE ... WHERE id = jid AND status = 'queued'` of
`worker_claim`, returning the affected `rowcount` and the updated table
(`api.py` lines 262–269). -/
def tryClaimUpdate (jid : Nat) (wid : String) (now : Int) (s : Store) :
    Nat × Store :=
  ((s.filter (fun r => r.id == jid && r.status == JobStatus.queued)).length,
   s.map (updRow jid wid now))

/-- Embeds `enforce_claim_quota` (`quota.py` lines 39–50) as a boolean: the
owning consumer must exist, be active, and have fewer running jobs than
`max_concurrent_jobs`; `db.get(Consumer, consumer_id)` is lookup of the
primary key in the consumer table. -/
def claimQuotaOk (consumers : List ConsumerRow) (s : Store) (cid : Nat) : Bool :=
  match consumers.find? (fun c => c.id == cid) with
  | none => false
  | some c => c.active && decide (runningCount s cid < c.maxConcurrentJobs)

/-- The retry loop of `worker_claim` (`api.py` lines 249–275) with
explicit fuel (`for _ in range(10)`): select the oldest queued job,
bail out with no job when none is queued or the owner's claim quota
fails, run the conditional update, and return the re-fetched row when
the update affected exactly one row, otherwise retry. -/
def claimLoop (consumers : List ConsumerRow) (wid : String) (now : Int) :
    Nat → Store → Option JobRow × Store
  | 0, s => (none, s)
  | fuel + 1, s =>
    match selectOldestQueued s with
    | none => (none, s)
    | some job =>
      if claimQuotaOk consumers s job.consumerId then
        let res := tryClaimUpdate job.id wid now s
        if res.1 == 1 then
          match res.2.find? (fun r => r.id == job.id) with
          | some claimed => (some claimed, res.2)
          | none => (none, res.2)
        else claimLoop consumers wid now fuel res.2
      else (none, s)

/-- One call of the `POST /v1/worker/claim` handler (`api.py`,
`worker_claim`): the retry loop with fuel 10. -/
def workerClaim (consumers : List ConsumerRow) (wid : String) (now : Int)
    (s : Store) : Option JobRow × Store :=
  claimLoop consumers wid now 10 s

/-- Runs `K` sequential calls of `worker_claim`, collecting each call's
response. -/
def runClaims (consumers : List ConsumerRow) (wid : String) (now : Int) :
    Nat → Store → List (Option JobRow) × Store
  | 0, s => ([], s)
  | k + 1, s =>
    let r := workerClaim consumers wid now s
    let rest := runClaims consumers wid now k r.2
    (r.1 :: rest.1, rest.2)

/-! ### Interleaved claim attempts (for the at-most-once property)

A concurrent execution of several `worker_claim` requests interleaves
their atomic store operations.  The `SELECT`s do not mutate the store;
the only mutation is the conditional `UPDATE`.  Any interleaving of any
number of claim calls therefore induces a sequence of `tryClaimUpdate`
steps against the shared table, each targeting the job id its call had
selected; the at-most-once property is proved over an arbitrary such
sequence. -/

/-- One interleaved conditional-update attempt: the worker id issuing it,
the job id it targets, and the `utcnow()` it captured. -/
structure ClaimAttempt where
  wid : String
  jid : Nat
  now : Int
deriving DecidableEq, Repr

/-- Number of rows of the table that the conditional update on
`(jid, status=queued)` would affect: its `rowcount`. -/
def queuedWithId (j : Nat) (s : Store) : Nat :=
  (s.filter (fun r => r.id == j && r.status == JobStatus.queued)).length

/-- Number of attempts in `as`, run sequentially against `s`, that
observe a successful claim of job `j` (the `rowcount == 1` test of
`api.py` line 270). -/
def successesOn (j : Nat) : Store → List ClaimAttempt → Nat
  | _, [] => 0
  | s, a :: rest =>
    let res := tryClaimUpdate a.jid a.wid a.now s
    (if a.jid == j && res.1 == 1 then 1 else 0) + successesOn j res.2 rest

/-- The queued rows of the table, in table order. -/
def queuedJobs (s : Store) : List JobRow :=
  s.filter (fun j => j.status == JobStatus.queued)

/-- Ordering of job rows by `created_at`, the key of the claim query. -/
def createdLe (a b : JobRow) : Prop := a.created ≤ b.created

instance : DecidableRel createdLe := fun a b => Int.decLe a.created b.created

instance : IsTotal JobRow createdLe := ⟨fun a b => Int.le_total a.created b.created⟩

instance : IsTrans JobRow createdLe := ⟨fun _ _ _ h1 h2 => le_trans h1 h2⟩

/-- The row shape a successful claim returns: the selected row moved to
`running` with `started_at` and `worker_id` filled in. -/
def claimedForm (wid : String) (now : Int) (j : JobRow) : JobRow :=
  { j with status := JobStatus.running, startedAt := some now,
           workerId := some wid }

/-- Side condition under which `enforce_claim_quota` can never reject:
every job's owning consumer resolves, is active, and allows more
concurrent jobs than the table has rows. -/
def quotaAlwaysOk (consumers : List ConsumerRow) (s : Store) : Bool :=
  s.all (fun j =>
    match consumers.find? (fun c => c.id == j.consumerId) with
    | none => false
    | some c => c.active && decide (s.length < c.maxConcurrentJobs))

/-! ### The finish endpoint (`api.py`, `worker_finish`, lines 317–334) -/

/-- Body of `POST /v1/worker/jobs/{id}/finish` (`api.py`, `FinishJobIn`). -/
structure FinishPayload where
  status : JobStatus
  exitCode : Option Int := none
  error : Option String := none
deriving DecidableEq, Repr

/-- Effect of `worker_finish` on one row: the row with the given id gets
`status`, `exit_code` and `error` from the payload and
`finished_at = utcnow()`, unconditionally (`api.py` lines 328–331). -/
def finishRow (jid : Nat) (p : FinishPayload) (now : Int) (r : JobRow) : JobRow :=
  if r.id == jid then
    { r with status := p.status, exitCode := p.exitCode,
             error := p.error, finishedAt := some now }
  else r

/-- The `POST /v1/worker/jobs/{id}/finish` handler: 404 (`none`) when no
row has the id, otherwise write the payload plus `finished_at = utcnow()`
to the row — with no check of the row's current status. -/
def workerFinish (jid : Nat) (p : FinishPayload) (now : Int) (s : Store) :
    Option Store :=
  if s.any (fun r => r.id == jid) then some (s.map (finishRow jid p now)) else none

/-! ### Submit quota and job creation (`quota.py` lines 17–36,
`api.py` `create_job` lines 113–132) -/

/-- Rejections of `enforce_submit_quota`, tagged with the HTTP status
that `create_job` maps the `QuotaError` to. -/
inductive SubmitReject where
  | consumerDisabled    -- 403, "consumer is disabled"
  | concurrentLimit     -- 429, "concurrent job limit reached"
  | dailyLimit          -- 429, "daily job limit reached"
deriving DecidableEq, Repr

/-- HTTP status code carried by each `QuotaError`
(`quota.py`: `status_code=403` for the disabled consumer, default 429
for the two limits). -/
def SubmitReject.statusCode : SubmitReject → Nat
  | .consumerDisabled => 403
  | .concurrentLimit => 429
  | .dailyLimit => 429

/-- Jobs of the consumer created within the last day
(`quota.py` lines 29–34: `created_at >= utcnow() - timedelta(days=1)`). -/
def recentCount (s : Store) (cid : Nat) (now : Int) : Nat :=
  (s.filter (fun j => j.consumerId == cid && decide (now - 86400 ≤ j.created))).length

/-- Embeds `enforce_submit_quota` (`quota.py` lines 17–36): inactive consumer
raises with 403; `len(running) >= max_concurrent_jobs` and
`len(recent) >= max_jobs_per_day` raise with 429, checked in that
order. -/
def enforceSubmitQuota (s : Store) (c : ConsumerRow) (now : Int) :
    Option SubmitReject :=
  if !c.active then some .consumerDisabled
  else if c.maxConcurrentJobs ≤ runningCount s c.id then some .concurrentLimit
  else if c.maxJobsPerDay ≤ recentCount s c.id now then some .dailyLimit
  else none

/-- Sandbox selector of the payload (`models.py`, `SandboxType`). -/
inductive SandboxType where
  | local
  | docker
deriving DecidableEq, Repr

/-- Embeds `POST /v1/jobs` (`api.py`, `create_job`, lines 113–132): 400 when
the payload picks the local sandbox while it is disabled by
configuration, a quota rejection's status code otherwise, else a fresh
queued row is inserted (`Job(...)` defaults: `status=queued`,
`created_at=now`).  The fresh id stands for the generated UUID. -/
def createJob (allowLocalSandbox : Bool) (sandbox : SandboxType)
    (c : ConsumerRow) (newId : Nat) (now : Int) (s : Store) :
    Except Nat Store :=
  if sandbox == SandboxType.local && !allowLocalSandbox then .error 400
  else
    match enforceSubmitQuota s c now with
    | some rej => .error rej.statusCode
    | none =>
      .ok (s ++ [{ id := newId, consumerId := c.id,
                   status := JobStatus.queued, created := now }])

/-! ### Log append (`api.py`, `worker_append_logs`, lines 282–308)

Python strings become `List Char`; `text[:MAX]` is `List.take`. -/

/-- The marker string appended on truncation,
`"\n[truncated]\n"` (`api.py` line 304). -/
def truncationMarker : List Char :=
  ['\n', '[', 't', 'r', 'u', 'n', 'c', 'a', 't', 'e', 'd', ']', '\n']

/-- The bare marker text `"[truncated]"` named by the spec. -/
def markerCore : List Char :=
  ['[', 't', 'r', 'u', 'n', 'c', 'a', 't', 'e', 'd', ']']

/-- Per-chunk truncation (`api.py` lines 302–304):
`if len(text) > MAX_LOG_CHARS: text = text[:MAX_LOG_CHARS] + "\n[truncated]\n"`.
`maxLogChars` models `config.MAX_LOG_CHARS` (env-configurable,
default 4000). -/
def truncateText (maxLogChars : Nat) (text : List Char) : List Char :=
  if maxLogChars < text.length then text.take maxLogChars ++ truncationMarker
  else text

/-- A row of the `joblogchunk` table (`models.py`, `JobLogChunk`). -/
structure ChunkRow where
  jobId : Nat
  seq : Nat
  stream : String
  text : List Char
deriving DecidableEq, Repr

/-- A chunk as supplied in the request body (`api.py`, `AppendLogsIn` /
`LogChunkOut`): it carries a `seq` field of its own. -/
structure ChunkIn where
  seq : Nat
  stream : String
  text : List Char
deriving DecidableEq, Repr

/-- Largest stored `seq` for a job
(`api.py` lines 296–298: `ORDER BY seq DESC LIMIT 1`). -/
def maxSeqFor (jid : Nat) (logs : List ChunkRow) : Option Nat :=
  ((logs.filter (fun c => c.jobId == jid)).map (fun c => c.seq)).max?

/-- Rows inserted by the append loop (`api.py` lines 301–306): the k-th
supplied chunk is stored with seq `start + k`; its `seq` field is never
read, its `text` is truncated. -/
def buildChunks (maxLogChars : Nat) (jid : Nat) (start : Nat)
    (chunks : List ChunkIn) : List ChunkRow :=
  match chunks with
  | [] => []
  | c :: rest =>
    { jobId := jid, seq := start, stream := c.stream,
      text := truncateText maxLogChars c.text }
      :: buildChunks maxLogChars jid (start + 1) rest

/-- The `POST /v1/worker/jobs/{id}/logs` handler: 404 is identified with
a no-op for the stored chunks; when the job exists but is neither
`running` nor `queued` the call returns ok without writing; otherwise
the next seq is one past the stored maximum (0 when none) and the
supplied chunks are appended in order. -/
def workerAppendLogs (maxLogChars : Nat) (jobs : Store) (jid : Nat)
    (chunks : List ChunkIn) (logs : List ChunkRow) : List ChunkRow :=
  match jobs.find? (fun j => j.id == jid) with
  | none => logs
  | some job =>
    if job.status == JobStatus.running || job.status == JobStatus.queued then
      let start := match maxSeqFor jid logs with
        | none => 0
        | some m => m + 1
      logs ++ buildChunks maxLogChars jid start chunks
    else logs

/-- One append call in a sequence: the job-table snapshot it observes
(job statuses may change between calls through claims and finishes),
the target job and the supplied chunks. -/
structure AppendCall where
  jobs : Store
  jid : Nat
  chunks : List ChunkIn
deriving Repr

/-- A sequence of append calls run against the chunk table. -/
def applyAppendCalls (maxLogChars : Nat) :
    List AppendCall → List ChunkRow → List ChunkRow
  | [], logs => logs
  | a :: rest, logs =>
    applyAppendCalls maxLogChars rest
      (workerAppendLogs maxLogChars a.jobs a.jid a.chunks logs)

/-- Per job, the stored chunks' `seq` values are exactly `0..N-1`, in
storage order: dense, starting at 0, with no gaps. -/
def DenseSeqs (logs : List ChunkRow) : Prop :=
  ∀ j : Nat,
    (logs.filter (fun c => c.jobId == j)).map (fun c => c.seq)
      = List.range (logs.filter (fun c => c.jobId == j)).length

/-- Occurrences of `pat` in `l`: the number of positions at which `pat`
is a prefix of the corresponding suffix of `l`. -/
def isPrefOf : List Char → List Char → Bool
  | [], _ => true
  | _ :: _, [] => false
  | a :: as, b :: bs => a == b && isPrefOf as bs

/-- Number of starting positions of `pat` inside `l`. -/
def countSubstr (pat : List Char) : List Char → Nat
  | [] => 0
  | c :: rest => (if isPrefOf pat (c :: rest) then 1 else 0) + countSubstr pat rest

/-! ### Sandbox executor (`sandbox.py`, `run_local` and `run_docker`)

The interaction with the operating system is abstracted into an
environment record: whether each fallible step succeeds, and whether the
child process exits within the timeout (`some rc`, the code `p.wait`
returns) or not (`none`, `p.wait` raises `TimeoutExpired`).  The control
flow of the Python functions is then translated branch for branch. -/

/-- A `(stream, text)` record handed to `on_log`. -/
abbrev LogLine := String × String

/-- The `system` log line emitted on timeout
(`f"timeout after {timeout_seconds}s\n"`). -/
def timeoutLogLine (timeoutSeconds : Nat) : LogLine :=
  ("system", "timeout after " ++ toString timeoutSeconds ++ "s\n")

/-- The wait/timeout tail of `run_local` (`sandbox.py` lines 70–83):
`p.wait(timeout)` returning `rc` yields `rc`; `TimeoutExpired` logs the
timeout line, kills the child and yields 124.  The result pairs the exit
code with the `system` log lines emitted by the supervising thread. -/
def runLocalModel (timeoutSeconds : Nat) (wait : Option Int) :
    Int × List LogLine :=
  match wait with
  | some rc => (rc, [])
  | none => (124, [timeoutLogLine timeoutSeconds])

/-- Environment of one `run_docker` call: which fallible steps succeed
and how the container wait ends. -/
structure DockerEnv where
  dockerFound : Bool := true        -- `shutil.which("docker") is not None`
  preflightOk : Bool := true        -- `docker info` ran and returned 0
  netMode : String := "job"         -- `config.DOCKER_NETWORK_MODE` (after the `or "job"` default)
  networkCreateOk : Bool := true    -- `docker network create` succeeded
  popenOk : Bool := true            -- `subprocess.Popen(docker_cmd, ...)` did not raise
  stdinOk : Bool := true            -- writing the script to `p.stdin` did not raise
  wait : Option Int := some 0       -- `p.wait(timeout)`: exit code, or `none` on timeout
deriving Repr

/-- How a `run_docker` call leaves the function. -/
inductive DockerResult where
  | ret (rc : Int)        -- `return rc`
  | raised                -- an exception propagates out of `run_docker`
  | fellBackToLocal       -- docker binary missing: delegates to `run_local`
deriving DecidableEq, Repr

/-- Observable outcome of one `run_docker` call. -/
structure DockerOutcome where
  result : DockerResult
  logs : List LogLine
  createdNetwork : Bool
  removedNetwork : Bool
deriving Repr

/-- Embeds `run_docker` (`sandbox.py` lines 86–277), branch for branch:
missing binary falls back to `run_local`; failed preflight returns 126;
network mode `"job"` creates a per-job network (falling back to
`"bridge"` when creation fails); a `Popen` failure removes the network
and re-raises; a failure writing the script to stdin kills the child and
re-raises — without touching the network; a timeout logs and returns
124; otherwise the container's exit code is returned; on the return
paths a created network is removed.  `removedNetwork` records whether
`docker network rm` was attempted before control left the function. -/
def runDockerModel (timeoutSeconds : Nat) (e : DockerEnv) : DockerOutcome :=
  if !e.dockerFound then
    { result := .fellBackToLocal, logs := [("system", "docker not found; falling back to local\n")],
      createdNetwork := false, removedNetwork := false }
  else if !e.preflightOk then
    { result := .ret 126, logs := [("system", "docker is not usable on this worker\n")],
      createdNetwork := false, removedNetwork := false }
  else
    let created := e.netMode == "job" && e.networkCreateOk
    if !e.popenOk then
      { result := .raised, logs := [], createdNetwork := created,
        removedNetwork := created }
    else if !e.stdinOk then
      { result := .raised, logs := [], createdNetwork := created,
        removedNetwork := false }
    else
      match e.wait with
      | none =>
        { result := .ret 124, logs := [timeoutLogLine timeoutSeconds],
          createdNetwork := created, removedNetwork := created }
      | some rc =>
        { result := .ret rc, logs := [], createdNetwork := created,
          removedNetwork := created }

/-! ### Consumer authentication (`api.py`, `_require_consumer` lines
33–53 and the prologue of `ws_job_logs` lines 177–198) -/

/-- Embeds `consumer_key.split(".", 1)[0]`: the prefix before the first `'.'`,
or the whole token when it has none. -/
def keyIdOf (k : String) : String :=
  String.mk (k.data.takeWhile (fun c => c != '.'))

/-- The REST dependency `_require_consumer`: 401 when the header is
missing or empty, when no consumer matches the key id, or when the
digest check fails; 403 when the consumer is found and verified but
inactive.  `verify` abstracts `verify_api_key` over the stored salt and
digest. -/
def requireConsumer (verify : String → ConsumerRow → Bool)
    (consumers : List ConsumerRow) (header : Option String) :
    Except Nat ConsumerRow :=
  match header with
  | none => .error 401
  | some k =>
    if k == "" then .error 401
    else
      match consumers.find? (fun c => c.keyId == keyIdOf k) with
      | none => .error 401
      | some c =>
        if !verify k c then .error 401
        else if !c.active then .error 403
        else .ok c

/-- The authentication prologue of the WebSocket endpoint `ws_job_logs`:
close 4401 when the header is missing, unmatched or unverified, 4404
when the job is missing or not owned — and no check of `active` at all;
on success the handler proceeds to stream the job's log chunks. -/
def wsJobLogsAuth (verify : String → ConsumerRow → Bool)
    (consumers : List ConsumerRow) (jobs : Store) (jobId : Nat)
    (header : Option String) : Except Nat ConsumerRow :=
  match header with
  | none => .error 4401
  | some k =>
    if k == "" then .error 4401
    else
      match consumers.find? (fun c => c.keyId == keyIdOf k) with
      | none => .error 4401
      | some c =>
        if !verify k c then .error 4401
        else
          match jobs.find? (fun j => j.id == jobId) with
          | none => .error 4404
          | some job =>
            if job.consumerId == c.id then .ok c else .error 4404

/-! ## Proofs -/

theorem tryClaimUpdate_fst (jid : Nat) (wid : String) (now : Int) (s : Store) :
    (tryClaimUpdate jid wid now s).1 = queuedWithId jid s := rfl

theorem updRow_id (jid : Nat) (wid : String) (now : Int) (r : JobRow) :
    (updRow jid wid now r).id = r.id := by
  unfold updRow; split <;> rfl

theorem updRow_pred_self (jid : Nat) (wid : String) (now : Int) (r : JobRow) :
    ((updRow jid wid now r).id == jid
      && (updRow jid wid now r).status == JobStatus.queued) = false := by
  unfold updRow
  by_cases h : (r.id == jid && r.status == JobStatus.queued) = true
  · simp only [h, if_true]
    simp
  · simp only [h]
    simp only [Bool.not_eq_true] at h
    simp [h]

theorem updRow_pred_other (jid j : Nat) (wid : String) (now : Int) (r : JobRow)
    (hne : jid ≠ j) :
    ((updRow jid wid now r).id == j
      && (updRow jid wid now r).status == JobStatus.queued)
      = (r.id == j && r.status == JobStatus.queued) := by
  unfold updRow
  by_cases h : (r.id == jid && r.status == JobStatus.queued) = true
  · have hid : r.id = jid := by
      have := (Bool.and_eq_true _ _).mp h
      exact eq_of_beq this.1
    simp only [h, if_true]
    have hnej : (r.id == j) = false := by
      simp [hid, hne]
    simp [hnej]
  · simp only [h]
    simp

theorem queuedWithId_map_updRow (j jid : Nat) (wid : String) (now : Int)
    (s : Store) :
    queuedWithId j (s.map (updRow jid wid now))
      = if jid = j then 0 else queuedWithId j s := by
  induction s with
  | nil => simp [queuedWithId]
  | cons r rs ih =>
    by_cases hj : jid = j
    · subst hj
      simp only [if_pos rfl] at ih ⊢
      simp only [queuedWithId, List.map_cons, List.filter_cons] at ih ⊢
      rw [updRow_pred_self]
      simpa [queuedWithId] using ih
    · simp only [if_neg hj] at ih ⊢
      simp only [queuedWithId, List.map_cons, List.filter_cons] at ih ⊢
      rw [updRow_pred_other _ _ _ _ _ hj]
      by_cases hp : (r.id == j && r.status == JobStatus.queued) = true
      · simp only [hp, if_true, List.length_cons]
        simpa [queuedWithId] using congrArg Nat.succ ih
      · simp only [hp]
        simpa [queuedWithId] using ih

theorem successesOn_of_no_queued (j : Nat) (as : List ClaimAttempt) :
    ∀ s : Store, queuedWithId j s = 0 → successesOn j s as = 0 := by
  induction as with
  | nil => intro s _; rfl
  | cons a rest ih =>
    intro s hz
    have hafter : queuedWithId j (s.map (updRow a.jid a.wid a.now)) = 0 := by
      rw [queuedWithId_map_updRow]
      split <;> simp [hz]
    have hrest : successesOn j ((tryClaimUpdate a.jid a.wid a.now s).2) rest = 0 :=
      ih _ hafter
    show (if a.jid == j && (tryClaimUpdate a.jid a.wid a.now s).1 == 1
          then 1 else 0) + successesOn j ((tryClaimUpdate a.jid a.wid a.now s).2) rest = 0
    rw [hrest, Nat.add_zero]
    by_cases hjid : a.jid = j
    · have hcnt : (tryClaimUpdate a.jid a.wid a.now s).1 = 0 := by
        rw [tryClaimUpdate_fst, hjid]; exact hz
      simp [hcnt]
    · have hb : (a.jid == j) = false := by
        simp [hjid]
      simp [hb]

/-- C1: across any set of concurrent `worker_claim` calls — i.e. any
interleaving of their conditional-update attempts against the shared
store — at most one attempt observes a successful claim (`rowcount == 1`)
of any given job: the update succeeds only while the row is still
`queued`, and a success moves it to `running`, which no claim step ever
reverses. -/
theorem claim_at_most_once (j : Nat) (s : Store) (as : List ClaimAttempt) :
    successesOn j s as ≤ 1 := by
  induction as generalizing s with
  | nil => simp [successesOn]
  | cons a rest ih =>
    show (if a.jid == j && (tryClaimUpdate a.jid a.wid a.now s).1 == 1
          then 1 else 0) + successesOn j ((tryClaimUpdate a.jid a.wid a.now s).2) rest ≤ 1
    by_cases hc : (a.jid == j && (tryClaimUpdate a.jid a.wid a.now s).1 == 1) = true
    · have hj : a.jid = j := eq_of_beq ((Bool.and_eq_true _ _).mp hc).1
      have hafter : queuedWithId j ((tryClaimUpdate a.jid a.wid a.now s).2) = 0 := by
        show queuedWithId j (s.map (updRow a.jid a.wid a.now)) = 0
        rw [queuedWithId_map_updRow, hj, if_pos rfl]
      have hz := successesOn_of_no_queued j rest _ hafter
      simp [hc, hz]
    · simp only [Bool.not_eq_true] at hc
      simp only [hc, Bool.false_eq_true, if_false, Nat.zero_add]
      exact ih _

/-! ### C3 / C4: the finish endpoint -/

theorem finishRow_id (jid : Nat) (p : FinishPayload) (now : Int) (r : JobRow) :
    (finishRow jid p now r).id = r.id := by
  unfold finishRow; split <;> rfl

theorem finishRow_absorb (jid : Nat) (p : FinishPayload) (t1 t2 : Int) (r : JobRow) :
    finishRow jid p t2 (finishRow jid p t1 r) = finishRow jid p t2 r := by
  unfold finishRow
  by_cases h : (r.id == jid) = true
  · simp [h]
  · simp only [Bool.not_eq_true] at h
    simp [h]

theorem workerFinish_any_map (jid : Nat) (p : FinishPayload) (t : Int) (s : Store) :
    (s.map (finishRow jid p t)).any (fun r => r.id == jid)
      = s.any (fun r => r.id == jid) := by
  induction s with
  | nil => rfl
  | cons r rs ih =>
    simp only [List.map_cons, List.any_cons, finishRow_id, ih]

/-- C3 counterexample: a job whose status is the terminal `succeeded` is
changed to `failed` by a later call of the finish endpoint — the handler
writes the payload status with no check of the current one. -/
theorem claim_c3_counterexample :
    JobStatus.isTerminal JobStatus.succeeded = true ∧
    workerFinish 0 { status := JobStatus.failed } 5
        [{ id := 0, consumerId := 0, status := JobStatus.succeeded, created := 0 }]
      = some [{ id := 0, consumerId := 0, status := JobStatus.failed, created := 0,
                finishedAt := some 5 }] :=
  ⟨rfl, rfl⟩

/-- C3 amended: the claim endpoint's conditional update moves a row's
status only along the legal edge queued→running (any other row is left
untouched), while the finish endpoint writes the payload status to the
addressed row unconditionally — so a terminal status is stable across
claim operations but can be overwritten by a further finish call. -/
theorem claim_status_edges :
    (∀ (jid : Nat) (wid : String) (now : Int) (r : JobRow),
        updRow jid wid now r = r ∨
          (r.status = JobStatus.queued ∧
            (updRow jid wid now r).status = JobStatus.running)) ∧
    (∀ (jid : Nat) (p : FinishPayload) (now : Int) (r : JobRow),
        (finishRow jid p now r).status
          = if r.id == jid then p.status else r.status) := by
  constructor
  · intro jid wid now r
    unfold updRow
    by_cases h : (r.id == jid && r.status == JobStatus.queued) = true
    · right
      refine ⟨eq_of_beq ((Bool.and_eq_true _ _).mp h).2, ?_⟩
      simp [h]
    · left
      simp only [Bool.not_eq_true] at h
      simp [h]
  · intro jid p now r
    unfold finishRow
    by_cases h : (r.id == jid) = true
    · simp [h]
    · simp only [Bool.not_eq_true] at h
      simp [h]

/-- C4 counterexample: repeating `worker_finish` with an identical
terminal payload is not a no-op — the handler re-executes
`finished_at = utcnow()`, so the second call at a later time changes the
row's `finished_at`. -/
theorem claim_c4_counterexample :
    workerFinish 0 { status := JobStatus.succeeded, exitCode := some 0 } 1
        [{ id := 0, consumerId := 0, status := JobStatus.running, created := 0 }]
      = some [{ id := 0, consumerId := 0, status := JobStatus.succeeded,
                created := 0, finishedAt := some 1, exitCode := some 0 }] ∧
    workerFinish 0 { status := JobStatus.succeeded, exitCode := some 0 } 2
        [{ id := 0, consumerId := 0, status := JobStatus.succeeded,
           created := 0, finishedAt := some 1, exitCode := some 0 }]
      = some [{ id := 0, consumerId := 0, status := JobStatus.succeeded,
                created := 0, finishedAt := some 2, exitCode := some 0 }] ∧
    ([{ id := 0, consumerId := 0, status := JobStatus.succeeded,
        created := 0, finishedAt := some 2, exitCode := some 0 }] : Store)
      ≠ [{ id := 0, consumerId := 0, status := JobStatus.succeeded,
           created := 0, finishedAt := some 1, exitCode := some 0 }] := by
  refine ⟨rfl, rfl, ?_⟩
  decide

/-- C4 amended: a repeated finish call with the identical payload leaves
status, exit code and error exactly as after the first call and changes
only `finished_at`, which it overwrites with its own current time: a
second call at time `t2` produces exactly the store that a single call
at `t2` would have produced, and a repeat at the first call's own
timestamp is a no-op. -/
theorem finish_idempotent_up_to_time (jid : Nat) (p : FinishPayload)
    (t1 t2 : Int) (s s1 : Store) (h : workerFinish jid p t1 s = some s1) :
    workerFinish jid p t2 s1 = workerFinish jid p t2 s ∧
    workerFinish jid p t1 s1 = some s1 := by
  have hany : s.any (fun r => r.id == jid) = true := by
    by_cases ha : s.any (fun r => r.id == jid) = true
    · exact ha
    · exfalso
      simp only [Bool.not_eq_true] at ha
      unfold workerFinish at h
      rw [ha] at h
      simp at h
  have hs1 : s1 = s.map (finishRow jid p t1) := by
    unfold workerFinish at h
    rw [hany] at h
    simp at h
    exact h.symm
  have habs : ∀ t : Int, workerFinish jid p t s1 = workerFinish jid p t s := by
    intro t
    unfold workerFinish
    rw [hs1, workerFinish_any_map, hany]
    simp only [if_true]
    rw [List.map_map]
    exact congrArg (fun f => Option.some (List.map f s))
      (funext fun r => finishRow_absorb jid p t1 t r)
  exact ⟨habs t2, (habs t1).trans h⟩

/-- Witness for `finish_idempotent_up_to_time` at a concrete store. -/
theorem finish_idempotent_up_to_time_witness :
    workerFinish 0 { status := JobStatus.succeeded } 2
        [{ id := 0, consumerId := 0, status := JobStatus.succeeded,
           created := 0, finishedAt := some 1 }]
      = workerFinish 0 { status := JobStatus.succeeded } 2
          [{ id := 0, consumerId := 0, status := JobStatus.running, created := 0 }] ∧
    workerFinish 0 { status := JobStatus.succeeded } 1
        [{ id := 0, consumerId := 0, status := JobStatus.succeeded,
           created := 0, finishedAt := some 1 }]
      = some [{ id := 0, consumerId := 0, status := JobStatus.succeeded,
                created := 0, finishedAt := some 1 }] :=
  finish_idempotent_up_to_time 0 { status := JobStatus.succeeded } 1 2
    [{ id := 0, consumerId := 0, status := JobStatus.running, created := 0 }]
    [{ id := 0, consumerId := 0, status := JobStatus.succeeded,
       created := 0, finishedAt := some 1 }] rfl

/-! ### C2: FIFO order of successful claims -/

theorem updRow_consumerId (jid : Nat) (wid : String) (now : Int) (r : JobRow) :
    (updRow jid wid now r).consumerId = r.consumerId := by
  unfold updRow; split <;> rfl

theorem minByCreated_eq_head_sort (l : List JobRow)
    (h : (l.map JobRow.created).Nodup) :
    minByCreated l = (List.insertionSort createdLe l).head? := by
  induction l with
  | nil => rfl
  | cons x xs ih =>
    have hx : x.created ∉ xs.map JobRow.created := by
      simp only [List.map_cons, List.nodup_cons] at h; exact h.1
    have hxs : (xs.map JobRow.created).Nodup := by
      simp only [List.map_cons, List.nodup_cons] at h; exact h.2
    have ih' := ih hxs
    simp only [minByCreated, List.insertionSort]
    cases hsort : List.insertionSort createdLe xs with
    | nil =>
      rw [hsort] at ih'
      simp only [List.head?] at ih'
      rw [ih']
      rfl
    | cons m t =>
      rw [hsort] at ih'
      simp only [List.head?] at ih'
      rw [ih']
      have hmem : m ∈ xs := by
        have hm : m ∈ List.insertionSort createdLe xs := by
          rw [hsort]; exact List.mem_cons_self _ _
        exact (List.perm_insertionSort createdLe xs).mem_iff.mp hm
      have hne : m.created ≠ x.created := by
        intro he
        exact hx (he ▸ List.mem_map_of_mem JobRow.created hmem)
      by_cases hle : createdLe x m
      · have hlt : x.created < m.created :=
          lt_of_le_of_ne hle (fun he => hne he.symm)
        have hnm : ¬ m.created < x.created := lt_asymm hlt
        simp [List.orderedInsert, hle, hnm]
      · have hml : m.created < x.created := by
          have := lt_of_not_le hle
          exact this
        simp [List.orderedInsert, hle, hml]

theorem queuedJobs_map_updRow (jid : Nat) (wid : String) (now : Int) (s : Store) :
    queuedJobs (s.map (updRow jid wid now))
      = (queuedJobs s).filter (fun r => r.id != jid) := by
  induction s with
  | nil => rfl
  | cons r rs ih =>
    simp only [queuedJobs, List.map_cons, List.filter_cons] at ih ⊢
    by_cases hp : (r.id == jid && r.status == JobStatus.queued) = true
    · have hid : r.id = jid := eq_of_beq ((Bool.and_eq_true _ _).mp hp).1
      have hst : ((updRow jid wid now r).status == JobStatus.queued) = false := by
        unfold updRow; rw [hp]; simp
      have hqr : (r.status == JobStatus.queued) = true :=
        ((Bool.and_eq_true _ _).mp hp).2
      have hidne : (r.id != jid) = false := by simp [hid]
      rw [hst, hqr]
      simp only [if_true, List.filter_cons, hidne]
      simpa [queuedJobs] using ih
    · have hupd : updRow jid wid now r = r := by
        unfold updRow
        simp only [Bool.not_eq_true] at hp
        simp [hp]
      rw [hupd]
      by_cases hqr : (r.status == JobStatus.queued) = true
      · have hidne : (r.id != jid) = true := by
          simp only [Bool.not_eq_true] at hp
          rcases Bool.and_eq_false_iff.mp hp with h1 | h1
          · simp only [bne, h1]; rfl
          · rw [h1] at hqr; exact absurd hqr (by simp)
        rw [hqr]
        simp only [if_true, List.filter_cons, hidne, if_true]
        simpa [queuedJobs] using congrArg (List.cons r) ih
      · simp only [Bool.not_eq_true] at hqr
        rw [hqr]
        simpa [queuedJobs] using ih

theorem filter_id_eq_single (s : Store) (m : JobRow) (hm : m ∈ s)
    (hids : (s.map JobRow.id).Nodup) :
    s.filter (fun r => r.id == m.id) = [m] := by
  induction s with
  | nil => cases hm
  | cons x xs ih =>
    have hx : x.id ∉ xs.map JobRow.id := by
      simp only [List.map_cons, List.nodup_cons] at hids; exact hids.1
    have hxs : (xs.map JobRow.id).Nodup := by
      simp only [List.map_cons, List.nodup_cons] at hids; exact hids.2
    rcases List.mem_cons.mp hm with he | hmem
    · subst he
      have hnil : xs.filter (fun r => r.id == m.id) = [] := by
        rw [List.filter_eq_nil_iff]
        intro r hr hb
        exact hx ((eq_of_beq hb) ▸ List.mem_map_of_mem JobRow.id hr)
      simp [List.filter_cons, hnil]
    · have hne : (x.id == m.id) = false := by
        by_cases hb : (x.id == m.id) = true
        · exact absurd ((eq_of_beq hb) ▸ List.mem_map_of_mem JobRow.id hmem) hx
        · simpa using hb
      rw [List.filter_cons, hne]
      simpa using ih hmem hxs

theorem queuedWithId_eq_one (s : Store) (m : JobRow) (hm : m ∈ s)
    (hq : m.status = JobStatus.queued) (hids : (s.map JobRow.id).Nodup) :
    queuedWithId m.id s = 1 := by
  unfold queuedWithId
  have hsplit : s.filter (fun r => r.id == m.id && r.status == JobStatus.queued)
      = (s.filter (fun r => r.id == m.id)).filter
          (fun r => r.status == JobStatus.queued) := by
    rw [List.filter_filter]
    exact List.filter_congr (fun a _ => Bool.and_comm _ _)
  rw [hsplit, filter_id_eq_single s m hm hids]
  simp [hq]

theorem find?_id_eq (s : Store) (m : JobRow) (hm : m ∈ s)
    (hids : (s.map JobRow.id).Nodup) :
    s.find? (fun r => r.id == m.id) = some m := by
  induction s with
  | nil => cases hm
  | cons x xs ih =>
    have hx : x.id ∉ xs.map JobRow.id := by
      simp only [List.map_cons, List.nodup_cons] at hids; exact hids.1
    have hxs : (xs.map JobRow.id).Nodup := by
      simp only [List.map_cons, List.nodup_cons] at hids; exact hids.2
    rcases List.mem_cons.mp hm with he | hmem
    · subst he
      simp [List.find?]
    · have hne : (x.id == m.id) = false := by
        by_cases hb : (x.id == m.id) = true
        · exact absurd ((eq_of_beq hb) ▸ List.mem_map_of_mem JobRow.id hmem) hx
        · simpa using hb
      rw [List.find?_cons, hne]
      simp only [cond_false]
      exact ih hmem hxs

theorem find?_id_map_updRow (s : Store) (jid : Nat) (wid : String) (now : Int)
    (i : Nat) :
    (s.map (updRow jid wid now)).find? (fun r => r.id == i)
      = (s.find? (fun r => r.id == i)).map (updRow jid wid now) := by
  induction s with
  | nil => rfl
  | cons x xs ih =>
    simp only [List.map_cons, List.find?_cons, updRow_id]
    cases hb : (x.id == i) with
    | true => simp
    | false => simpa using ih

theorem pairwise_lt_of_sorted_nodup (l : List JobRow)
    (hs : List.Sorted createdLe l) (hn : (l.map JobRow.created).Nodup) :
    l.Pairwise (fun a b => a.created < b.created) := by
  have hne : l.Pairwise (fun a b => a.created ≠ b.created) :=
    List.pairwise_map.mp hn
  exact (hs.and hne).imp (fun h => lt_of_le_of_ne h.1 h.2)

theorem sort_filter_ne_of_head (l : List JobRow) (m : JobRow) (t : List JobRow)
    (hids : (l.map JobRow.id).Nodup) (hcr : (l.map JobRow.created).Nodup)
    (hsort : List.insertionSort createdLe l = m :: t) :
    List.insertionSort createdLe (l.filter (fun r => r.id != m.id)) = t := by
  have hperm : List.Perm (m :: t) l := by
    have := List.perm_insertionSort createdLe l
    rwa [hsort] at this
  have hidsmt : ((m :: t).map JobRow.id).Nodup := by
    have hp : List.Perm ((m :: t).map JobRow.id) (l.map JobRow.id) := hperm.map JobRow.id
    exact hp.nodup_iff.mpr hids
  have hmid : m.id ∉ t.map JobRow.id := by
    simp only [List.map_cons, List.nodup_cons] at hidsmt
    exact hidsmt.1
  have htfilter : t.filter (fun r => r.id != m.id) = t := by
    rw [List.filter_eq_self]
    intro r hr
    have : r.id ≠ m.id := by
      intro he
      exact hmid (he ▸ List.mem_map_of_mem JobRow.id hr)
    simp [this]
  have hlperm : List.Perm (l.filter (fun r => r.id != m.id)) t := by
    have h1 : List.Perm (l.filter (fun r => r.id != m.id))
        ((m :: t).filter (fun r => r.id != m.id)) :=
      (hperm.filter _).symm
    have h2 : (m :: t).filter (fun r => r.id != m.id) = t := by
      rw [List.filter_cons]
      have : (m.id != m.id) = false := by simp
      rw [this]
      simpa using htfilter
    rwa [h2] at h1
  have hperm2 : List.Perm (List.insertionSort createdLe (l.filter (fun r => r.id != m.id))) t :=
    (List.perm_insertionSort createdLe _).trans hlperm
  -- both sides are strictly sorted by created, hence equal
  have hcrmt : ((m :: t).map JobRow.created).Nodup := by
    have hp : List.Perm ((m :: t).map JobRow.created) (l.map JobRow.created) :=
      hperm.map JobRow.created
    exact hp.nodup_iff.mpr hcr
  have hsorted_mt : List.Sorted createdLe (m :: t) := by
    have := List.sorted_insertionSort createdLe l
    rwa [hsort] at this
  have hst : List.Sorted createdLe t := hsorted_mt.of_cons
  have hct : (t.map JobRow.created).Nodup := by
    simp only [List.map_cons, List.nodup_cons] at hcrmt
    exact hcrmt.2
  have hlt_t : t.Pairwise (fun a b => a.created < b.created) :=
    pairwise_lt_of_sorted_nodup t hst hct
  have hsf : List.Sorted createdLe
      (List.insertionSort createdLe (l.filter (fun r => r.id != m.id))) :=
    List.sorted_insertionSort createdLe _
  have hcf : ((List.insertionSort createdLe
      (l.filter (fun r => r.id != m.id))).map JobRow.created).Nodup := by
    have hp : List.Perm ((List.insertionSort createdLe
        (l.filter (fun r => r.id != m.id))).map JobRow.created)
        (t.map JobRow.created) := hperm2.map JobRow.created
    exact hp.nodup_iff.mpr hct
  have hlt_sf : (List.insertionSort createdLe
      (l.filter (fun r => r.id != m.id))).Pairwise
        (fun a b => a.created < b.created) :=
    pairwise_lt_of_sorted_nodup _ hsf hcf
  haveI : IsAntisymm JobRow (fun a b => a.created < b.created) :=
    ⟨fun _ _ h1 h2 => absurd h2 (lt_asymm h1)⟩
  exact List.eq_of_perm_of_sorted hperm2 hlt_sf hlt_t

theorem runningCount_le_length (s : Store) (cid : Nat) :
    runningCount s cid ≤ s.length :=
  List.length_filter_le _ s

theorem claimQuotaOk_of_always (consumers : List ConsumerRow) (s : Store)
    (j : JobRow) (hj : j ∈ s) (h : quotaAlwaysOk consumers s = true) :
    claimQuotaOk consumers s j.consumerId = true := by
  have hall := (List.all_eq_true.mp h) j hj
  unfold claimQuotaOk
  cases hfc : consumers.find? (fun c => c.id == j.consumerId) with
  | none => rw [hfc] at hall; simp at hall
  | some c =>
    rw [hfc] at hall
    simp only at hall
    have hactive : c.active = true := ((Bool.and_eq_true _ _).mp hall).1
    have hlen : s.length < c.maxConcurrentJobs :=
      of_decide_eq_true ((Bool.and_eq_true _ _).mp hall).2
    have hrun : runningCount s j.consumerId < c.maxConcurrentJobs :=
      lt_of_le_of_lt (runningCount_le_length s j.consumerId) hlen
    simp [hactive, hrun]

theorem quotaAlwaysOk_map_updRow (consumers : List ConsumerRow) (jid : Nat)
    (wid : String) (now : Int) (s : Store)
    (h : quotaAlwaysOk consumers s = true) :
    quotaAlwaysOk consumers (s.map (updRow jid wid now)) = true := by
  unfold quotaAlwaysOk at h ⊢
  rw [List.all_eq_true] at h ⊢
  intro a ha
  rcases List.mem_map.mp ha with ⟨r, hr, hra⟩
  have := h r hr
  rw [← hra, updRow_consumerId, List.length_map]
  exact this

theorem claimLoop_of_select_none (consumers : List ConsumerRow) (wid : String)
    (now : Int) (fuel : Nat) (s : Store) (h : selectOldestQueued s = none) :
    claimLoop consumers wid now (fuel + 1) s = (none, s) := by
  simp [claimLoop, h]

theorem claimLoop_claims (consumers : List ConsumerRow) (wid : String)
    (now : Int) (fuel : Nat) (s : Store) (m : JobRow)
    (hsel : selectOldestQueued s = some m)
    (hquota : claimQuotaOk consumers s m.consumerId = true)
    (hcnt : queuedWithId m.id s = 1)
    (hfind : (s.map (updRow m.id wid now)).find? (fun r => r.id == m.id)
      = some (claimedForm wid now m)) :
    claimLoop consumers wid now (fuel + 1) s
      = (some (claimedForm wid now m), s.map (updRow m.id wid now)) := by
  have hcnt' : (tryClaimUpdate m.id wid now s).1 = 1 := by
    rw [tryClaimUpdate_fst]; exact hcnt
  simp only [claimLoop, hsel, hquota, if_true, hcnt']
  simp only [tryClaimUpdate] at hfind ⊢
  simp [hfind]

/-- C2 counterexample: the claim query orders by `created_at` alone —
`order_by(Job.created_at)` with no secondary key — so with two queued
jobs of equal `created_at` the claim returns the earlier table row even
though its id is the larger: the "tie-break by id" part of the claim is
not implemented.  Job id 2 was inserted before job id 1, both with
`created_at = 0`, and the claim picks id 2. -/
theorem claim_c2_counterexample :
    ((workerClaim
        [{ id := 0, keyId := "", active := true,
           maxConcurrentJobs := 10, maxJobsPerDay := 100 }] "w" 7
        [{ id := 2, consumerId := 0, status := JobStatus.queued, created := 0 },
         { id := 1, consumerId := 0, status := JobStatus.queued, created := 0 }]).1).map
        (fun r => r.id) = some 2
      ∧ (1 : Nat) < 2 := by
  constructor
  · rfl
  · decide

/-- C2 amended: `worker_claim` selects the oldest queued job by
`created_at` — with ties resolved by table order, not by id — and
atomically moves it to `running`, setting `started_at` and `worker_id`;
when the queued jobs' `created_at` values are pairwise distinct, every
job's owner passes the claim quota, and the `K` claim requests do not
interleave, the successful claims are exactly the first
`min(K, M)` queued jobs in `created_at` order, each returned in claimed
form, in that order. -/
theorem claim_fifo_of_distinct_created (consumers : List ConsumerRow)
    (wid : String) (now : Int) (K : Nat) (s : Store)
    (hids : (s.map JobRow.id).Nodup)
    (hcr : ((queuedJobs s).map JobRow.created).Nodup)
    (hq : quotaAlwaysOk consumers s = true) :
    (runClaims consumers wid now K s).1.filterMap (fun o => o)
      = ((List.insertionSort createdLe (queuedJobs s)).take
            (min K (queuedJobs s).length)).map (claimedForm wid now) := by
  induction K generalizing s with
  | zero => simp [runClaims]
  | succ k ih =>
    cases hsort : List.insertionSort createdLe (queuedJobs s) with
    | nil =>
      have hempty : queuedJobs s = [] := by
        have hp := List.perm_insertionSort createdLe (queuedJobs s)
        rw [hsort] at hp
        exact (List.Perm.symm hp).eq_nil
      have hsel : selectOldestQueued s = none := by
        show minByCreated (queuedJobs s) = none
        rw [hempty]
        rfl
      have hwc : workerClaim consumers wid now s = (none, s) :=
        claimLoop_of_select_none consumers wid now 9 s hsel
      show ((workerClaim consumers wid now s).1
            :: (runClaims consumers wid now k (workerClaim consumers wid now s).2).1).filterMap
            (fun o => o) = _
      rw [hwc]
      simp only [List.filterMap_cons]
      rw [ih s hids hcr hq, hsort, hempty]
      simp
    | cons m t =>
      -- the head of the sorted queued list is claimed
      have hpermq : List.Perm (m :: t) (queuedJobs s) := by
        have := List.perm_insertionSort createdLe (queuedJobs s)
        rwa [hsort] at this
      have hmemq : m ∈ queuedJobs s := hpermq.mem_iff.mp (List.mem_cons_self _ _)
      have hmem : m ∈ s := List.mem_of_mem_filter hmemq
      have hmq : m.status = JobStatus.queued := by
        have := List.of_mem_filter hmemq
        exact eq_of_beq this
      have hsel : selectOldestQueued s = some m := by
        show minByCreated (queuedJobs s) = some m
        rw [minByCreated_eq_head_sort (queuedJobs s) hcr, hsort]
        rfl
      have hquota : claimQuotaOk consumers s m.consumerId = true :=
        claimQuotaOk_of_always consumers s m hmem hq
      have hcnt : queuedWithId m.id s = 1 :=
        queuedWithId_eq_one s m hmem hmq hids
      have hupdm : updRow m.id wid now m = claimedForm wid now m := by
        unfold updRow claimedForm
        have : (m.id == m.id && m.status == JobStatus.queued) = true := by
          simp [hmq]
        rw [this]
        simp
      have hfind : (s.map (updRow m.id wid now)).find? (fun r => r.id == m.id)
          = some (claimedForm wid now m) := by
        rw [find?_id_map_updRow, find?_id_eq s m hmem hids]
        simp [hupdm]
      have hwc : workerClaim consumers wid now s
          = (some (claimedForm wid now m), s.map (updRow m.id wid now)) :=
        claimLoop_claims consumers wid now 9 s m hsel hquota hcnt hfind
      -- hypotheses for the remaining store
      have hids' : ((s.map (updRow m.id wid now)).map JobRow.id).Nodup := by
        have hmm : (s.map (updRow m.id wid now)).map JobRow.id = s.map JobRow.id := by
          rw [List.map_map]
          exact List.map_congr_left (fun r _ => updRow_id m.id wid now r)
        rwa [hmm]
      have hqj' : queuedJobs (s.map (updRow m.id wid now))
          = (queuedJobs s).filter (fun r => r.id != m.id) :=
        queuedJobs_map_updRow m.id wid now s
      have hsubq : List.Sublist (queuedJobs s) s := List.filter_sublist s
      have hidsq : ((queuedJobs s).map JobRow.id).Nodup :=
        ((hsubq.map JobRow.id).nodup) hids
      have hsortq' : List.insertionSort createdLe
          (queuedJobs (s.map (updRow m.id wid now))) = t := by
        rw [hqj']
        exact sort_filter_ne_of_head (queuedJobs s) m t hidsq hcr hsort
      have hlenq' : (queuedJobs (s.map (updRow m.id wid now))).length = t.length := by
        have hp := List.perm_insertionSort createdLe
          (queuedJobs (s.map (updRow m.id wid now)))
        rw [hsortq'] at hp
        exact hp.length_eq.symm
      have hcr' : ((queuedJobs (s.map (updRow m.id wid now))).map JobRow.created).Nodup := by
        rw [hqj']
        exact ((List.filter_sublist (queuedJobs s)).map JobRow.created).nodup hcr
      have hq' : quotaAlwaysOk consumers (s.map (updRow m.id wid now)) = true :=
        quotaAlwaysOk_map_updRow consumers m.id wid now s hq
      have hlen : (queuedJobs s).length = t.length + 1 := by
        have := hpermq.length_eq
        simpa using this.symm
      have hihs := ih (s.map (updRow m.id wid now)) hids' hcr' hq'
      rw [hsortq', hlenq'] at hihs
      show ((workerClaim consumers wid now s).1
            :: (runClaims consumers wid now k (workerClaim consumers wid now s).2).1).filterMap
            (fun o => o) = _
      rw [hwc]
      simp only [List.filterMap_cons]
      rw [hihs, hlen, Nat.succ_min_succ, List.take_succ_cons, List.map_cons]

/-- Witness for `claim_fifo_of_distinct_created`: two queued jobs with
distinct `created_at`, two claim calls. -/
theorem claim_fifo_of_distinct_created_witness :
    (([{ id := 1, consumerId := 0, status := JobStatus.queued, created := 5 },
       { id := 2, consumerId := 0, status := JobStatus.queued, created := 3 }] : Store).map
        JobRow.id).Nodup ∧
    ((queuedJobs
        [{ id := 1, consumerId := 0, status := JobStatus.queued, created := 5 },
         { id := 2, consumerId := 0, status := JobStatus.queued, created := 3 }]).map
        JobRow.created).Nodup ∧
    quotaAlwaysOk
        [{ id := 0, keyId := "", active := true,
           maxConcurrentJobs := 3, maxJobsPerDay := 100 }]
        [{ id := 1, consumerId := 0, status := JobStatus.queued, created := 5 },
         { id := 2, consumerId := 0, status := JobStatus.queued, created := 3 }] = true ∧
    (runClaims
        [{ id := 0, keyId := "", active := true,
           maxConcurrentJobs := 3, maxJobsPerDay := 100 }] "w" 7 2
        [{ id := 1, consumerId := 0, status := JobStatus.queued, created := 5 },
         { id := 2, consumerId := 0, status := JobStatus.queued, created := 3 }]).1.filterMap
        (fun o => o)
      = ((List.insertionSort createdLe
            (queuedJobs
              [{ id := 1, consumerId := 0, status := JobStatus.queued, created := 5 },
               { id := 2, consumerId := 0, status := JobStatus.queued, created := 3 }])).take
            (min 2
              (queuedJobs
                [{ id := 1, consumerId := 0, status := JobStatus.queued, created := 5 },
                 { id := 2, consumerId := 0, status := JobStatus.queued, created := 3 }]).length)).map
          (claimedForm "w" 7) :=
  ⟨by decide, by decide, by decide,
    claim_fifo_of_distinct_created
      [{ id := 0, keyId := "", active := true,
         maxConcurrentJobs := 3, maxJobsPerDay := 100 }] "w" 7 2
      [{ id := 1, consumerId := 0, status := JobStatus.queued, created := 5 },
       { id := 2, consumerId := 0, status := JobStatus.queued, created := 3 }]
      (by decide) (by decide) (by decide)⟩

/-! ### C5: dense server-assigned log sequence numbers -/

theorem buildChunks_jobId (maxLogChars jid : Nat) (chunks : List ChunkIn) :
    ∀ start : Nat, ∀ c ∈ buildChunks maxLogChars jid start chunks, c.jobId = jid := by
  induction chunks with
  | nil => intro start c hc; cases hc
  | cons x xs ih =>
    intro start c hc
    rcases List.mem_cons.mp hc with he | hm
    · rw [he]
    · exact ih (start + 1) c hm

theorem buildChunks_seqs (maxLogChars jid : Nat) (chunks : List ChunkIn) :
    ∀ start : Nat,
      (buildChunks maxLogChars jid start chunks).map (fun c => c.seq)
        = List.range' start chunks.length := by
  induction chunks with
  | nil => intro start; rfl
  | cons x xs ih =>
    intro start
    simp only [buildChunks, List.map_cons, List.length_cons, List.range']
    exact congrArg (List.cons start) (ih (start + 1))

theorem foldl_max_le (a : Nat) (xs : List Nat) :
    ∀ x : Nat, x ≤ a → (∀ y ∈ xs, y ≤ a) → xs.foldl max x ≤ a := by
  induction xs with
  | nil => intro x hx _; exact hx
  | cons y ys ih =>
    intro x hx h
    exact ih (max x y) (max_le hx (h y (List.mem_cons_self _ _)))
      (fun z hz => h z (List.mem_cons_of_mem _ hz))

theorem max?_append_singleton (l : List Nat) (a : Nat)
    (h : ∀ x ∈ l, x ≤ a) : (l ++ [a]).max? = some a := by
  cases l with
  | nil => rfl
  | cons x xs =>
    show some ((xs ++ [a]).foldl max x) = some a
    rw [List.foldl_append]
    show some (max (xs.foldl max x) a) = some a
    have : xs.foldl max x ≤ a :=
      foldl_max_le a xs x (h x (List.mem_cons_self _ _))
        (fun y hy => h y (List.mem_cons_of_mem _ hy))
    rw [max_eq_right this]

theorem max?_range_succ (n : Nat) : (List.range (n + 1)).max? = some n := by
  rw [List.range_succ]
  exact max?_append_singleton _ _ (fun x hx => Nat.le_of_lt (List.mem_range.mp hx))

theorem buildChunks_length (maxLogChars jid : Nat) (chunks : List ChunkIn) :
    ∀ start : Nat, (buildChunks maxLogChars jid start chunks).length = chunks.length := by
  induction chunks with
  | nil => intro start; rfl
  | cons x xs ih =>
    intro start
    simp only [buildChunks, List.length_cons]
    exact congrArg Nat.succ (ih (start + 1))

theorem range'_zero_append (N k : Nat) :
    List.range' 0 N ++ List.range' N k = List.range' 0 (N + k) := by
  have h := List.range'_append 0 N k 1
  simp only [Nat.one_mul, Nat.zero_add] at h
  rw [Nat.add_comm N k]
  exact h

theorem denseSeqs_step (maxLogChars : Nat) (jobs : Store) (jid : Nat)
    (chunks : List ChunkIn) (logs : List ChunkRow) (h : DenseSeqs logs) :
    DenseSeqs (workerAppendLogs maxLogChars jobs jid chunks logs) := by
  intro j
  unfold workerAppendLogs
  cases hf : jobs.find? (fun jb => jb.id == jid) with
  | none => exact h j
  | some job =>
    by_cases hst : (job.status == JobStatus.running
        || job.status == JobStatus.queued) = true
    · simp only [hst, if_true]
      -- the computed start equals the number of chunks stored for `jid`
      have hjid := h jid
      have hstart : (match maxSeqFor jid logs with
            | none => 0
            | some m => m + 1)
          = (logs.filter (fun c => c.jobId == jid)).length := by
        unfold maxSeqFor
        rw [hjid]
        cases hn : (logs.filter (fun c => c.jobId == jid)).length with
        | zero => rfl
        | succ n => rw [max?_range_succ]
      rw [hstart]
      by_cases hjj : jid = j
      · subst hjj
        have hkeep : (buildChunks maxLogChars jid
              ((logs.filter (fun c => c.jobId == jid)).length) chunks).filter
              (fun c => c.jobId == jid)
            = buildChunks maxLogChars jid
              ((logs.filter (fun c => c.jobId == jid)).length) chunks := by
          rw [List.filter_eq_self]
          intro c hc
          have := buildChunks_jobId maxLogChars jid chunks _ c hc
          simp [this]
        rw [List.filter_append, hkeep, List.map_append, List.length_append,
          buildChunks_length, buildChunks_seqs, h jid]
        simp only [List.range_eq_range']
        exact range'_zero_append _ _
      · have hdrop : (buildChunks maxLogChars jid
              ((logs.filter (fun c => c.jobId == jid)).length) chunks).filter
              (fun c => c.jobId == j) = [] := by
          rw [List.filter_eq_nil_iff]
          intro c hc hb
          have := buildChunks_jobId maxLogChars jid chunks _ c hc
          exact hjj (this ▸ eq_of_beq hb)
        rw [List.filter_append, hdrop, List.append_nil]
        exact h j
    · simp only [Bool.not_eq_true] at hst
      simp only [hst]
      exact h j

theorem applyAppendCalls_dense (maxLogChars : Nat) (calls : List AppendCall) :
    ∀ logs : List ChunkRow, DenseSeqs logs
      → DenseSeqs (applyAppendCalls maxLogChars calls logs) := by
  induction calls with
  | nil => intro logs h; exact h
  | cons a rest ih =>
    intro logs h
    exact ih _ (denseSeqs_step maxLogChars a.jobs a.jid a.chunks logs h)

theorem buildChunks_content (maxLogChars jid : Nat) :
    ∀ (a b : List ChunkIn),
      a.map (fun c => (c.stream, c.text)) = b.map (fun c => (c.stream, c.text))
      → ∀ start : Nat,
          buildChunks maxLogChars jid start a = buildChunks maxLogChars jid start b := by
  intro a
  induction a with
  | nil =>
    intro b h start
    cases b with
    | nil => rfl
    | cons y ys => simp at h
  | cons x xs ih =>
    intro b h start
    cases b with
    | nil => simp at h
    | cons y ys =>
      simp only [List.map_cons, List.cons.injEq, Prod.mk.injEq] at h
      obtain ⟨⟨hs, ht⟩, htl⟩ := h
      simp only [buildChunks, hs, ht]
      exact congrArg _ (ih ys htl (start + 1))

/-- C5: starting from an empty chunk table, after any sequence of
worker log-append calls (whatever job-table snapshots they observe),
every job's stored chunks carry seq values exactly `0..N-1` in order —
the server assigns them from one past the stored maximum — and the `seq`
field supplied in the request body has no effect: two calls whose chunk
lists agree on `stream` and `text` produce identical chunk tables. -/
theorem append_logs_dense_and_seq_ignored (maxLogChars : Nat) :
    (∀ calls : List AppendCall,
        DenseSeqs (applyAppendCalls maxLogChars calls [])) ∧
    (∀ (jobs : Store) (jid : Nat) (chunks chunks' : List ChunkIn)
        (logs : List ChunkRow),
        chunks.map (fun c => (c.stream, c.text))
            = chunks'.map (fun c => (c.stream, c.text))
        → workerAppendLogs maxLogChars jobs jid chunks logs
            = workerAppendLogs maxLogChars jobs jid chunks' logs) := by
  constructor
  · intro calls
    exact applyAppendCalls_dense maxLogChars calls [] (fun j => rfl)
  · intro jobs jid chunks chunks' logs hsame
    unfold workerAppendLogs
    cases jobs.find? (fun jb => jb.id == jid) with
    | none => rfl
    | some job =>
      by_cases hst : (job.status == JobStatus.running
          || job.status == JobStatus.queued) = true
      · simp only [hst, if_true]
        rw [buildChunks_content maxLogChars jid chunks chunks' hsame]
      · simp only [Bool.not_eq_true] at hst
        simp [hst]

/-- Witness for `append_logs_dense_and_seq_ignored`: two appends whose
chunk lists differ only in the advisory `seq` field (7 vs 0) produce the
same stored table; the density conclusion is instantiated at a concrete
call list. -/
theorem append_logs_dense_and_seq_ignored_witness :
    ([({ seq := 7, stream := "stdout", text := ['h', 'i'] } : ChunkIn)].map
        (fun c => (c.stream, c.text))
      = [({ seq := 0, stream := "stdout", text := ['h', 'i'] } : ChunkIn)].map
        (fun c => (c.stream, c.text))) ∧
    workerAppendLogs 4000
        [{ id := 1, consumerId := 0, status := JobStatus.running, created := 0 }] 1
        [{ seq := 7, stream := "stdout", text := ['h', 'i'] }] []
      = workerAppendLogs 4000
        [{ id := 1, consumerId := 0, status := JobStatus.running, created := 0 }] 1
        [{ seq := 0, stream := "stdout", text := ['h', 'i'] }] [] :=
  ⟨rfl,
    (append_logs_dense_and_seq_ignored 4000).2
      [{ id := 1, consumerId := 0, status := JobStatus.running, created := 0 }] 1
      [{ seq := 7, stream := "stdout", text := ['h', 'i'] }]
      [{ seq := 0, stream := "stdout", text := ['h', 'i'] }] [] rfl⟩

/-! ### C6: log-chunk truncation and the inline marker -/

theorem isPrefOf_append_no_nl (b' : List Char) :
    ∀ (p a : List Char), '\n' ∉ p
      → isPrefOf p (a ++ '\n' :: b') = isPrefOf p a := by
  intro p
  induction p with
  | nil => intro a _; rfl
  | cons c ps ih =>
    intro a hp
    have hc : c ≠ '\n' := fun he => hp (he ▸ List.mem_cons_self _ _)
    have hps : '\n' ∉ ps := fun hm => hp (List.mem_cons_of_mem _ hm)
    cases a with
    | nil =>
      show (c == '\n' && isPrefOf ps b') = false
      have : (c == '\n') = false := by simp [hc]
      simp [this]
    | cons x xs =>
      show (c == x && isPrefOf ps (xs ++ '\n' :: b'))
          = (c == x && isPrefOf ps xs)
      rw [ih xs hps]

theorem countSubstr_append_nl (p b' : List Char) (hp : '\n' ∉ p) :
    ∀ a : List Char,
      countSubstr p (a ++ '\n' :: b')
        = countSubstr p a + countSubstr p ('\n' :: b') := by
  intro a
  induction a with
  | nil =>
    show countSubstr p ('\n' :: b') = countSubstr p [] + countSubstr p ('\n' :: b')
    rw [show countSubstr p [] = 0 from rfl, Nat.zero_add]
  | cons x xs ih =>
    show (if isPrefOf p ((x :: xs) ++ '\n' :: b') then 1 else 0)
          + countSubstr p (xs ++ '\n' :: b') = _
    rw [isPrefOf_append_no_nl b' p (x :: xs) hp, ih]
    show _ = (if isPrefOf p (x :: xs) then 1 else 0)
          + countSubstr p xs + countSubstr p ('\n' :: b')
    rw [Nat.add_assoc]

/-- C6 counterexample: a chunk whose text starts with `"[truncated]"`
and exceeds the limit (here `MAX_LOG_CHARS = 12`, a legal environment
override) is stored with the marker occurring twice, not exactly once —
the kept prefix already contains it. -/
theorem claim_c6_counterexample :
    countSubstr markerCore (truncateText 12 (markerCore ++ ['x', 'y'])) = 2 ∧
    12 < (markerCore ++ ['x', 'y']).length := by
  decide

/-- C6 amended: an appended text longer than `MAX_LOG_CHARS` is stored
with length exactly `MAX_LOG_CHARS` plus the length of the appended
marker `"\n[truncated]\n"`, ends in that marker, and contains
`"[truncated]"` exactly once more than its kept prefix does — so
exactly once whenever the first `MAX_LOG_CHARS` characters do not
themselves contain the marker; a text within the limit is stored
unchanged. -/
theorem truncate_marker_tail (maxLogChars : Nat) (text : List Char) :
    (maxLogChars < text.length →
      (truncateText maxLogChars text).length
          = maxLogChars + truncationMarker.length ∧
      (∃ pre, truncateText maxLogChars text = pre ++ truncationMarker) ∧
      countSubstr markerCore (truncateText maxLogChars text)
          = countSubstr markerCore (text.take maxLogChars) + 1) ∧
    (text.length ≤ maxLogChars → truncateText maxLogChars text = text) := by
  constructor
  · intro hlt
    have htr : truncateText maxLogChars text
        = text.take maxLogChars ++ truncationMarker := by
      unfold truncateText
      rw [if_pos hlt]
    refine ⟨?_, ⟨text.take maxLogChars, htr⟩, ?_⟩
    · rw [htr, List.length_append, List.length_take,
        min_eq_left (Nat.le_of_lt hlt)]
    · rw [htr]
      have hsplit : truncationMarker = '\n' :: (markerCore ++ ['\n']) := rfl
      rw [hsplit,
        countSubstr_append_nl markerCore (markerCore ++ ['\n'])
          (by decide) (text.take maxLogChars)]
      have : countSubstr markerCore ('\n' :: (markerCore ++ ['\n'])) = 1 := by
        decide
      rw [this]
  · intro hle
    unfold truncateText
    rw [if_neg (Nat.not_lt.mpr hle)]

/-- Witness for `truncate_marker_tail` at `MAX_LOG_CHARS = 2` with the
three-character text `"abc"`, and at `MAX_LOG_CHARS = 3` with the same
text stored unchanged. -/
theorem truncate_marker_tail_witness :
    ((truncateText 2 ['a', 'b', 'c']).length = 2 + truncationMarker.length ∧
      (∃ pre, truncateText 2 ['a', 'b', 'c'] = pre ++ truncationMarker) ∧
      countSubstr markerCore (truncateText 2 ['a', 'b', 'c'])
        = countSubstr markerCore (['a', 'b', 'c'].take 2) + 1) ∧
    truncateText 3 ['a', 'b', 'c'] = ['a', 'b', 'c'] :=
  ⟨(truncate_marker_tail 2 ['a', 'b', 'c']).1 (by decide),
   (truncate_marker_tail 3 ['a', 'b', 'c']).2 (by decide)⟩

/-! ### C7: submit quota enforcement -/

theorem length_filter_map_eq {p q : JobRow → Bool} (f : JobRow → JobRow)
    (h : ∀ r, p (f r) = q r) (s : Store) :
    ((s.map f).filter p).length = (s.filter q).length := by
  induction s with
  | nil => rfl
  | cons r rs ih =>
    simp only [List.map_cons, List.filter_cons, h r]
    by_cases hq : q r = true
    · simp only [hq, if_true, List.length_cons, ih]
    · simp only [Bool.not_eq_true] at hq
      simp only [hq]
      exact ih

theorem submitQuota_ok (s : Store) (c : ConsumerRow) (now : Int)
    (hactive : c.active = true)
    (hrun : runningCount s c.id < c.maxConcurrentJobs)
    (hday : recentCount s c.id now < c.maxJobsPerDay) :
    enforceSubmitQuota s c now = none := by
  unfold enforceSubmitQuota
  rw [hactive]
  simp only [Bool.not_true, Bool.false_eq_true, if_false]
  rw [if_neg (Nat.not_le.mpr hrun), if_neg (Nat.not_le.mpr hday)]

theorem runningCount_after_finish (s : Store) (j : JobRow) (cid : Nat)
    (p : FinishPayload) (t : Int)
    (hids : (s.map JobRow.id).Nodup) (hj : j ∈ s)
    (hcj : j.consumerId = cid) (hrun : j.status = JobStatus.running)
    (hp : p.status ≠ JobStatus.running) :
    runningCount (s.map (finishRow j.id p t)) cid + 1 = runningCount s cid := by
  have hpt : ∀ r : JobRow,
      ((finishRow j.id p t r).consumerId == cid
        && (finishRow j.id p t r).status == JobStatus.running)
      = ((r.consumerId == cid && r.status == JobStatus.running)
          && r.id != j.id) := by
    intro r
    unfold finishRow
    by_cases hid : (r.id == j.id) = true
    · have hps : (p.status == JobStatus.running) = false := by
        simp [hp]
      have hne : (r.id != j.id) = false := by
        simp only [bne, hid]; rfl
      simp [hps, hne, hid]
    · have hne : (r.id != j.id) = true := by
        simp only [Bool.not_eq_true] at hid
        simp only [bne, hid]; rfl
      simp only [Bool.not_eq_true] at hid
      simp [hid, hne]
  unfold runningCount
  rw [length_filter_map_eq (finishRow j.id p t) hpt s]
  -- partition the running rows of the consumer by whether the id is j's
  have hsplit := List.length_eq_length_filter_add
    (l := s.filter (fun r => r.consumerId == cid && r.status == JobStatus.running))
    (fun r => r.id != j.id)
  have hone : ((s.filter (fun r => r.consumerId == cid
        && r.status == JobStatus.running)).filter
        (fun r => !(r.id != j.id))).length = 1 := by
    have hcomm : (s.filter (fun r => r.consumerId == cid
          && r.status == JobStatus.running)).filter (fun r => !(r.id != j.id))
        = (s.filter (fun r => r.id == j.id)).filter
            (fun r => r.consumerId == cid && r.status == JobStatus.running) := by
      rw [List.filter_filter, List.filter_filter]
      refine List.filter_congr (fun r _ => ?_)
      have hb : (!(r.id != j.id)) = (r.id == j.id) := by
        simp [bne]
      rw [hb, Bool.and_comm]
    rw [hcomm, filter_id_eq_single s j hj hids]
    have : (j.consumerId == cid && j.status == JobStatus.running) = true := by
      simp [hcj, hrun]
    simp [List.filter, this]
  have hfq : ((s.filter (fun r => r.consumerId == cid
        && r.status == JobStatus.running)).filter
        (fun r => r.id != j.id)).length
      = (s.filter (fun r => (r.consumerId == cid
          && r.status == JobStatus.running) && r.id != j.id)).length := by
    rw [List.filter_filter]
    exact congrArg List.length (List.filter_congr (fun r _ => Bool.and_comm _ _))
  rw [← hfq, hsplit, hone]

/-- C7: `create_job` rejects with 403 when the consumer is inactive,
with 429 when the consumer's running jobs reach `max_concurrent_jobs`,
with 429 when the jobs created in the last 24 hours reach
`max_jobs_per_day` (checked in that order), and otherwise inserts a
fresh queued row; moreover, once a running job of a consumer sitting at
`running_count == max_concurrent` is finished with a non-running status,
the next submit succeeds. -/
theorem submit_quota_behavior (allowLocal : Bool) (sandbox : SandboxType)
    (c : ConsumerRow) (newId : Nat) (now : Int) (s : Store)
    (hsb : (sandbox == SandboxType.local && !allowLocal) = false) :
    (c.active = false
      → createJob allowLocal sandbox c newId now s = .error 403) ∧
    (c.active = true → c.maxConcurrentJobs ≤ runningCount s c.id
      → createJob allowLocal sandbox c newId now s = .error 429) ∧
    (c.active = true → runningCount s c.id < c.maxConcurrentJobs
      → c.maxJobsPerDay ≤ recentCount s c.id now
      → createJob allowLocal sandbox c newId now s = .error 429) ∧
    (c.active = true → runningCount s c.id < c.maxConcurrentJobs
      → recentCount s c.id now < c.maxJobsPerDay
      → createJob allowLocal sandbox c newId now s
          = .ok (s ++ [{ id := newId, consumerId := c.id,
                         status := JobStatus.queued, created := now }])) ∧
    (∀ (j : JobRow) (p : FinishPayload) (t : Int) (s' : Store),
      c.active = true
      → (s.map JobRow.id).Nodup
      → j ∈ s → j.consumerId = c.id → j.status = JobStatus.running
      → runningCount s c.id = c.maxConcurrentJobs
      → p.status ≠ JobStatus.running
      → workerFinish j.id p t s = some s'
      → recentCount s' c.id now < c.maxJobsPerDay
      → createJob allowLocal sandbox c newId now s'
          = .ok (s' ++ [{ id := newId, consumerId := c.id,
                          status := JobStatus.queued, created := now }])) := by
  have hcj : ∀ s2 : Store, enforceSubmitQuota s2 c now = none
      → createJob allowLocal sandbox c newId now s2
        = .ok (s2 ++ [{ id := newId, consumerId := c.id,
                        status := JobStatus.queued, created := now }]) := by
    intro s2 hq
    unfold createJob
    rw [hsb]
    simp only [Bool.false_eq_true, if_false, hq]
  refine ⟨?_, ?_, ?_, ?_, ?_⟩
  · intro hina
    unfold createJob
    rw [hsb]
    simp only [Bool.false_eq_true, if_false]
    unfold enforceSubmitQuota
    rw [hina]
    rfl
  · intro hact hge
    unfold createJob
    rw [hsb]
    simp only [Bool.false_eq_true, if_false]
    unfold enforceSubmitQuota
    rw [hact]
    simp only [Bool.not_true, Bool.false_eq_true, if_false]
    rw [if_pos hge]
    rfl
  · intro hact hlt hge
    unfold createJob
    rw [hsb]
    simp only [Bool.false_eq_true, if_false]
    unfold enforceSubmitQuota
    rw [hact]
    simp only [Bool.not_true, Bool.false_eq_true, if_false]
    rw [if_neg (Nat.not_le.mpr hlt), if_pos hge]
    rfl
  · intro hact hlt hday
    exact hcj s (submitQuota_ok s c now hact hlt hday)
  · intro j p t s' hact hids hj hjc hjr hmax hp hfin hday
    have hany : s.any (fun r => r.id == j.id) = true := by
      by_cases ha : s.any (fun r => r.id == j.id) = true
      · exact ha
      · exfalso
        simp only [Bool.not_eq_true] at ha
        unfold workerFinish at hfin
        rw [ha] at hfin
        simp at hfin
    have hs' : s' = s.map (finishRow j.id p t) := by
      unfold workerFinish at hfin
      rw [hany] at hfin
      simp at hfin
      exact hfin.symm
    have hdec := runningCount_after_finish s j c.id p t hids hj hjc hjr hp
    have hlt' : runningCount s' c.id < c.maxConcurrentJobs := by
      rw [hs']
      rw [← hmax, ← hdec]
      exact Nat.lt_succ_self _
    exact hcj s' (submitQuota_ok s' c now hact hlt' hday)

/-- Witness for `submit_quota_behavior`: a consumer at its concurrency
cap is rejected, and after finishing the running job the next submit
succeeds. -/
theorem submit_quota_behavior_witness :
    (createJob true SandboxType.docker
        { id := 0, keyId := "", active := true,
          maxConcurrentJobs := 1, maxJobsPerDay := 100 } 5 1000
        [{ id := 3, consumerId := 0, status := JobStatus.running, created := 0 }]
      = .error 429) ∧
    (createJob true SandboxType.docker
        { id := 0, keyId := "", active := true,
          maxConcurrentJobs := 1, maxJobsPerDay := 100 } 5 1000
        [{ id := 3, consumerId := 0, status := JobStatus.succeeded, created := 0,
           finishedAt := some 900, exitCode := some 0 }]
      = .ok
        [{ id := 3, consumerId := 0, status := JobStatus.succeeded, created := 0,
           finishedAt := some 900, exitCode := some 0 },
         { id := 5, consumerId := 0, status := JobStatus.queued, created := 1000 }]) := by
  constructor
  · exact (submit_quota_behavior true SandboxType.docker
      { id := 0, keyId := "", active := true,
        maxConcurrentJobs := 1, maxJobsPerDay := 100 } 5 1000
      [{ id := 3, consumerId := 0, status := JobStatus.running, created := 0 }]
      (by decide)).2.1 (by decide) (by decide)
  · exact (submit_quota_behavior true SandboxType.docker
      { id := 0, keyId := "", active := true,
        maxConcurrentJobs := 1, maxJobsPerDay := 100 } 5 1000
      [{ id := 3, consumerId := 0, status := JobStatus.running, created := 0 }]
      (by decide)).2.2.2.2
      { id := 3, consumerId := 0, status := JobStatus.running, created := 0 }
      { status := JobStatus.succeeded, exitCode := some 0 } 900 _
      (by decide) (by decide) (by decide) (by decide) (by decide)
      (by decide) (by decide) rfl (by decide)

/-! ### C8 / C9: sandbox executor -/

/-- C8: both executor backends, once the command is actually launched:
a wait that exceeds the timeout yields exit code 124 and the
`"timeout after Ns"` system log line; a process exiting within the
timeout yields its exit code verbatim. -/
theorem executor_timeout_exit_codes (t : Nat) (e : DockerEnv)
    (hfound : e.dockerFound = true) (hpre : e.preflightOk = true)
    (hpopen : e.popenOk = true) (hstdin : e.stdinOk = true) :
    runLocalModel t none = (124, [timeoutLogLine t]) ∧
    (∀ rc : Int, runLocalModel t (some rc) = (rc, [])) ∧
    (e.wait = none →
      (runDockerModel t e).result = DockerResult.ret 124 ∧
      (runDockerModel t e).logs = [timeoutLogLine t]) ∧
    (∀ rc : Int, e.wait = some rc
      → (runDockerModel t e).result = DockerResult.ret rc) := by
  refine ⟨rfl, fun _ => rfl, ?_, ?_⟩
  · intro hw
    unfold runDockerModel
    rw [hfound, hpre, hpopen, hstdin, hw]
    exact ⟨rfl, rfl⟩
  · intro rc hw
    unfold runDockerModel
    rw [hfound, hpre, hpopen, hstdin, hw]
    rfl

/-- Witness for `executor_timeout_exit_codes` at timeout 5, exit code 3. -/
theorem executor_timeout_exit_codes_witness :
    runLocalModel 5 none = (124, [timeoutLogLine 5]) ∧
    runLocalModel 5 (some 3) = (3, []) ∧
    (runDockerModel 5 { wait := none }).result = DockerResult.ret 124 ∧
    (runDockerModel 5 { wait := none }).logs = [timeoutLogLine 5] ∧
    (runDockerModel 5 { wait := some 3 }).result = DockerResult.ret 3 :=
  ⟨(executor_timeout_exit_codes 5 { wait := none } rfl rfl rfl rfl).1,
   (executor_timeout_exit_codes 5 { wait := none } rfl rfl rfl rfl).2.1 3,
   ((executor_timeout_exit_codes 5 { wait := none } rfl rfl rfl rfl).2.2.1 rfl).1,
   ((executor_timeout_exit_codes 5 { wait := none } rfl rfl rfl rfl).2.2.1 rfl).2,
   (executor_timeout_exit_codes 5 { wait := some 3 } rfl rfl rfl rfl).2.2.2 3 rfl⟩

/-- C9: evaluation of `run_docker` at the failing path — the per-job
network was created, writing the script to the container's stdin raises,
and the exception propagates with no attempt to remove the network:
the claim's "every exit path attempts removal" does not hold on the
stdin-failure path (`sandbox.py` lines 232–241 kill the process and
re-raise with no network cleanup). -/
theorem claim_c9_network_leak :
    (runDockerModel 5 { stdinOk := false }).createdNetwork = true ∧
    (runDockerModel 5 { stdinOk := false }).result = DockerResult.raised ∧
    (runDockerModel 5 { stdinOk := false }).removedNetwork = false :=
  ⟨rfl, rfl, rfl⟩

/-! ### C10: the WebSocket endpoint skips the `active` check -/

/-- C10: for a consumer whose credential verifies but whose `active`
flag is false, every REST endpoint (through `_require_consumer`) rejects
with 403, while the WebSocket log endpoint authenticates the same
credential successfully and proceeds to serve the consumer's job log
chunks. -/
theorem ws_ignores_active_flag (verify : String → ConsumerRow → Bool)
    (consumers : List ConsumerRow) (jobs : Store) (jobId : Nat)
    (k : String) (c : ConsumerRow) (job : JobRow)
    (hk : (k == "") = false)
    (hfc : consumers.find? (fun c0 => c0.keyId == keyIdOf k) = some c)
    (hv : verify k c = true)
    (hina : c.active = false)
    (hfj : jobs.find? (fun j0 => j0.id == jobId) = some job)
    (hown : job.consumerId = c.id) :
    requireConsumer verify consumers (some k) = .error 403 ∧
    wsJobLogsAuth verify consumers jobs jobId (some k) = .ok c := by
  constructor
  · simp [requireConsumer, hk, hfc, hv, hina]
  · have hb : (job.consumerId == c.id) = true := by simp [hown]
    simp [wsJobLogsAuth, hk, hfc, hv, hfj, hb]

/-- Witness for `ws_ignores_active_flag`: a disabled consumer with a
verifying key and an owned job. -/
theorem ws_ignores_active_flag_witness :
    requireConsumer (fun _ _ => true)
        [{ id := 1, keyId := "kid", active := false,
           maxConcurrentJobs := 1, maxJobsPerDay := 100 }]
        (some "kid.secret") = .error 403 ∧
    wsJobLogsAuth (fun _ _ => true)
        [{ id := 1, keyId := "kid", active := false,
           maxConcurrentJobs := 1, maxJobsPerDay := 100 }]
        [{ id := 9, consumerId := 1, status := JobStatus.queued, created := 0 }] 9
        (some "kid.secret")
      = .ok { id := 1, keyId := "kid", active := false,
              maxConcurrentJobs := 1, maxJobsPerDay := 100 } :=
  ws_ignores_active_flag (fun _ _ => true)
    [{ id := 1, keyId := "kid", active := false,
       maxConcurrentJobs := 1, maxJobsPerDay := 100 }]
    [{ id := 9, consumerId := 1, status := JobStatus.queued, created := 0 }] 9
    "kid.secret"
    { id := 1, keyId := "kid", active := false,
      maxConcurrentJobs := 1, maxJobsPerDay := 100 }
    { id := 9, consumerId := 1, status := JobStatus.queued, created := 0 }
    rfl rfl rfl rfl rfl rfl

end Distbuild
